import Mathlib

/-!
Shallow embedding of the `obsidian-ai-notes` plugin (`src/main.ts`).

JS strings are modelled as `List Char`; a JS `Blob` of audio data is modelled
as its byte content, `List Nat`.  Stateful methods of the `AiNotes` plugin
class are modelled as pure functions on an explicit `AiNotesState`, returning
the new state together with the list of observable external effects they
perform (modal status updates, device calls, vault writes, notices), in the
order the code performs them.
-/

namespace AiNotes

/-! ## Characters: JS whitespace and the forbidden filename characters -/

/-- Characters matched by the JS regexp class `\s` (also the set removed by
`String.prototype.trim`): space, tab, line terminators, and the Unicode
space separators. -/
def jsWsChars : List Char :=
  ['\t', '\n', '\x0B', '\x0C', '\r', ' ', '\u00A0', '\u1680',
   '\u2000', '\u2001', '\u2002', '\u2003', '\u2004', '\u2005', '\u2006',
   '\u2007', '\u2008', '\u2009', '\u200A', '\u2028', '\u2029', '\u202F',
   '\u205F', '\u3000', '\uFEFF']

/-- Whether `c` is JS whitespace. -/
def jsWs (c : Char) : Bool := jsWsChars.contains c

/-- The characters of the regexp class `[\\/:*?"<>|]` in
`AiNotes.sanitizeFileName` (src/main.ts:175). -/
def forbiddenChars : List Char := ['\\', '/', ':', '*', '?', '"', '<', '>', '|']

/-- Whether `c` is one of the forbidden filename characters. -/
def forbiddenChar (c : Char) : Bool := forbiddenChars.contains c

/-- Action of `.replace(/[\\/:*?"<>|]/g, '-')` on one character. -/
def replChar (c : Char) : Char := if forbiddenChar c then '-' else c

/-- `.replace(/[\\/:*?"<>|]/g, '-')` (src/main.ts:175): every forbidden
character is replaced by a dash. -/
def replaceForbidden (s : List Char) : List Char := s.map replChar

/-- Worker for `collapseWs`.  The Boolean records whether the previously
scanned character was whitespace, so that a maximal whitespace run emits a
single `' '`. -/
def collapseWsAux : Bool → List Char → List Char
  | _, [] => []
  | prevWs, c :: rest =>
    if jsWs c then
      if prevWs then collapseWsAux true rest
      else ' ' :: collapseWsAux true rest
    else c :: collapseWsAux false rest

/-- `.replace(/\s+/g, ' ')` (src/main.ts:176): each maximal run of
whitespace becomes a single space. -/
def collapseWs (s : List Char) : List Char := collapseWsAux false s

/-- `.trim()` (src/main.ts:177 and src/main.ts:147): drop leading and
trailing JS whitespace. -/
def trimList (s : List Char) : List Char :=
  ((s.dropWhile jsWs).reverse.dropWhile jsWs).reverse

/-- The character class `[ .]` of the final replace in
`sanitizeFileName` (src/main.ts:179). -/
def spaceDot (c : Char) : Bool := c == ' ' || c == '.'

/-- `.replace(/[ .]+$/g, '')` (src/main.ts:179): drop the maximal trailing
run of spaces and dots. -/
def stripTrailingSpaceDot (s : List Char) : List Char :=
  (s.reverse.dropWhile spaceDot).reverse

/-- `AiNotes.sanitizeFileName` (src/main.ts:172-180): replace the forbidden
characters with dashes, collapse whitespace runs, trim, then strip trailing
spaces and dots. -/
def sanitizeFileName (s : List Char) : List Char :=
  stripTrailingSpaceDot (trimList (collapseWs (replaceForbidden s)))

/-! ## Data model: settings, plugin state, effects -/

/-- The `TranscriptionType` interface (src/main.ts:4-8). -/
structure TranscriptionType where
  name : String
  description : String
  prompt : String
deriving DecidableEq

/-- The `MediaRecorder.state` DOM attribute of the recorder held in
`AiNotes.mediaRecorder`. -/
inductive RecorderState
  | inactive
  | recording
  | paused
deriving DecidableEq

/-- Mutable fields of the `AiNotes` plugin object (src/main.ts:22-27)
together with the settings fields the modelled methods read
(src/main.ts:10-14).  A media stream is modelled as the list of its track
identifiers; the audio chunk buffer as a list of byte lists. -/
structure AiNotesState where
  geminiApiKey : String
  customTranscriptionTypes : List TranscriptionType
  mediaRecorder : Option RecorderState
  audioChunks : List (List Nat)
  stream : Option (List Nat)
  currentTranscriptionTitle : Option (List Char)
deriving DecidableEq

/-- The status union of `TranscriptionProgressModal` (src/main.ts:619). -/
inductive ProgressStatus
  | transcribing
  | saving
  | completed
  | error
deriving DecidableEq

/-- `TranscriptionProgressModal.updateStatus` (src/main.ts:678-681) sets the
modal's status field; the UI text is a pure projection of it. -/
def updateStatus (_old : ProgressStatus) (status : ProgressStatus) : ProgressStatus :=
  status

/-- Observable external effects of the modelled methods, in program order. -/
inductive Effect
  | openModal
  | status (s : ProgressStatus)
  | closeModal
  | inference (audio : List Nat) (prompt : String)
  | createFolder (path : String)
  | createNote (path : List Char) (content : String)
  | openLink (path : List Char)
  | notice (msg : String)
  | getUserMedia
  | recorderStop
  | trackStop (track : Nat)
deriving DecidableEq

/-- Outcome of the awaited `this.transcribe` call inside
`transcribeAndSave`: the generated text, or the thrown error's message. -/
inductive TranscribeOutcome
  | ok (text : String)
  | err (msg : String)
deriving DecidableEq

/-- Outcome of the awaited `this.app.vault.create` call: success, or the
thrown error's message.  (`createFolder` failure is swallowed by the code
and so needs no outcome.) -/
inductive SaveOutcome
  | ok
  | err (msg : String)
deriving DecidableEq

/-- Result of one run of a modelled method: final plugin state and the list
of effects performed. -/
structure RunResult where
  state : AiNotesState
  effects : List Effect
deriving DecidableEq

/-! ## The pipeline: transcribe, filename derivation, transcribeAndSave -/

/-- The request payload `AiNotes.transcribe` (src/main.ts:117-134) sends to
`model.generateContent`: the audio bytes (the base64 transport encoding of
`blobToBase64` is abstracted away, keeping the raw bytes), the fixed MIME
type, and the prompt text.  It is built unconditionally for every blob —
there is no empty-audio guard. -/
structure InferenceRequest where
  mimeType : String
  data : List Nat
  text : String
deriving DecidableEq

/-- The `generateContent` argument built by `AiNotes.transcribe`. -/
def transcribeRequest (audioBlob : List Nat) (prompt : String) : InferenceRequest :=
  { mimeType := "audio/webm", data := audioBlob, text := prompt }

/-- Filename base chosen by `transcribeAndSave` (src/main.ts:147-149):
the trimmed pending title, sanitized, when that is non-empty; otherwise the
timestamp fallback `transcription-<epoch-millis>`. -/
def fileBaseName (title : Option (List Char)) (now : Nat) : List Char :=
  let providedTitle := trimList (title.getD [])
  let safeBase := if providedTitle ≠ [] then sanitizeFileName providedTitle else []
  if safeBase ≠ [] then safeBase else ("transcription-".data) ++ (Nat.repr now).data

/-- Destination path built by `transcribeAndSave` (src/main.ts:146-151):
`transcriptions/<base>.md`. -/
def filePath (title : Option (List Char)) (now : Nat) : List Char :=
  ("transcriptions/".data) ++ fileBaseName title now ++ (".md".data)

/-- `AiNotes.transcribeAndSave` (src/main.ts:137-170).  `now` is the value
`Date.now()` returns at src/main.ts:149; the outcomes of the two awaited
fallible calls (`transcribe`, `vault.create`) are explicit parameters;
`workspace.openLinkText` is modelled as non-failing.  Effects are listed in
program order; the error-path `progress.close()` scheduled via `setTimeout`
is modelled as an ordinary `closeModal` effect. -/
def transcribeAndSave (st : AiNotesState) (audioBlob : List Nat) (prompt : String)
    (tx : TranscribeOutcome) (save : SaveOutcome) (now : Nat) : RunResult :=
  let ev0 : List Effect :=
    [Effect.openModal, Effect.status ProgressStatus.transcribing,
     Effect.inference audioBlob prompt]
  match tx with
  | TranscribeOutcome.err msg =>
      { state := st,
        effects := ev0 ++
          [Effect.status ProgressStatus.error,
           Effect.notice ("Error during transcription: " ++ msg),
           Effect.closeModal] }
  | TranscribeOutcome.ok text =>
      let path := filePath st.currentTranscriptionTitle now
      let ev1 := ev0 ++
        [Effect.status ProgressStatus.saving, Effect.createFolder ("transcriptions")]
      match save with
      | SaveOutcome.err msg =>
          { state := st,
            effects := ev1 ++
              [Effect.status ProgressStatus.error,
               Effect.notice ("Error during transcription: " ++ msg),
               Effect.closeModal] }
      | SaveOutcome.ok =>
          { state := { st with currentTranscriptionTitle := none },
            effects := ev1 ++
              [Effect.createNote path text, Effect.closeModal, Effect.openLink path] }

/-- Projection of a run's effect list onto the sequence of
`ProgressPresenter` states it sets. -/
def statusTrace (effects : List Effect) : List ProgressStatus :=
  effects.filterMap (fun e =>
    match e with
    | Effect.status s => some s
    | _ => none)

/-! ## Recording: initRecording, the recorder events, stopRecording -/

/-- Result of the awaited `navigator.mediaDevices.getUserMedia` call:
a granted stream (its track identifiers) or a thrown error's message. -/
inductive MediaResult
  | granted (tracks : List Nat)
  | denied (msg : String)
deriving DecidableEq

/-- `AiNotes.initRecording` (src/main.ts:75-99).  A missing API key (JS
falsy test `!this.settings.geminiApiKey`; for a string, exactly `""`)
returns `false` before any device access.  On a thrown `getUserMedia` the
assignments did not happen, so the state is unchanged.  Returns the new
state, the method's Boolean result, and the effects. -/
def initRecording (st : AiNotesState) (media : MediaResult) :
    AiNotesState × Bool × List Effect :=
  if st.geminiApiKey = "" then
    (st, false, [Effect.notice ("Please set your Gemini API key in the settings.")])
  else
    match media with
    | MediaResult.granted tracks =>
        ({ st with
            stream := some tracks,
            mediaRecorder := some RecorderState.inactive,
            audioChunks := [] },
         true, [Effect.getUserMedia])
    | MediaResult.denied msg =>
        (st, false,
         [Effect.getUserMedia,
          Effect.notice ("Error initializing recording: " ++ msg)])

/-- The `dataavailable` listener (src/main.ts:86-88): push the event's data
onto `audioChunks`. -/
def dataAvailable (st : AiNotesState) (chunk : List Nat) : AiNotesState :=
  { st with audioChunks := st.audioChunks ++ [chunk] }

/-- The blob built by the `stop` listener (src/main.ts:90-93):
`new Blob(this.audioChunks, ...)`, the concatenation of the buffered
chunks.  With no `dataavailable` event it is the valid zero-length blob. -/
def stopEventBlob (st : AiNotesState) : List Nat :=
  st.audioChunks.flatten

/-- `AiNotes.stopRecording` (src/main.ts:107-115).  The recorder is stopped
only when present and not `inactive`; independently of that, a non-null
stream has every one of its tracks stopped and is then released
(`this.stream = null`). -/
def stopRecording (st : AiNotesState) : AiNotesState × List Effect :=
  let recStep : Option RecorderState × List Effect :=
    match st.mediaRecorder with
    | some r =>
        if r ≠ RecorderState.inactive then (some RecorderState.inactive, [Effect.recorderStop])
        else (some r, [])
    | none => (none, [])
  match st.stream with
  | some tracks =>
      ({ st with mediaRecorder := recStep.1, stream := none },
       recStep.2 ++ tracks.map Effect.trackStop)
  | none =>
      ({ st with mediaRecorder := recStep.1 }, recStep.2)

/-! ## Transcription type selection -/

/-- The `defaultTypes` array of `TranscriptionTypeModal.onOpen`
(src/main.ts:784-788). -/
def defaultTypes : List TranscriptionType :=
  [{ name := "Simple",
     description := "A plain transcription of the audio.",
     prompt := "Transcribe the audio." },
   { name := "Standard",
     description := "Transcription with key takeaways and a summary.",
     prompt := "Transcribe the audio. Also, extract key takeaways and a summary." },
   { name := "Detailed",
     description := "Transcription with takeaways, summary, action items, and questions.",
     prompt := "Transcribe the audio. Also, extract key takeaways, a summary, action items, and a list of questions asked." }]

/-- The ordered entry list rendered by `TranscriptionTypeModal.onOpen`
(src/main.ts:790-812): the three built-ins, then the stored custom types in
order. -/
def modalEntries (customs : List TranscriptionType) : List TranscriptionType :=
  defaultTypes ++ customs

/-- The entry whose Select button sits at position `i` of the modal. -/
def selectEntry (customs : List TranscriptionType) (i : Nat) : Option TranscriptionType :=
  (modalEntries customs)[i]?

/-- Clicking Select on entry `i` (src/main.ts:796-799, 808-811): runs
`transcribeAndSave` with that entry's prompt. -/
def selectAndRun (st : AiNotesState) (audioBlob : List Nat) (i : Nat)
    (tx : TranscribeOutcome) (save : SaveOutcome) (now : Nat) : Option RunResult :=
  (selectEntry st.customTranscriptionTypes i).map
    (fun t => transcribeAndSave st audioBlob t.prompt tx save now)

/-! ## Spec-worded restatement of the sanitizer

`sanitizeFileNameSpec` follows the wording of the (amended) specification of
the sanitizer: replace each of `\ / : * ? " < > |` with `'-'`, collapse
every run of whitespace to a single space, trim leading and trailing
whitespace, then strip trailing dots and spaces.  `sanitizeFileNameClaimC2`
follows the claim's wording verbatim, with "strip (remove)" instead of
"replace with a dash". -/

/-- Collapse of whitespace runs, written directly on runs: a whitespace
character and the whole run after it become one space. -/
def collapseRuns : List Char → List Char
  | [] => []
  | c :: rest =>
    if jsWs c then ' ' :: collapseRuns (rest.dropWhile jsWs)
    else c :: collapseRuns rest
termination_by l => l.length
decreasing_by
  · simp only [List.length_cons]
    exact Nat.lt_succ_of_le ((List.dropWhile_suffix jsWs).sublist).length_le
  · simp

/-- Trim, written with Mathlib's right-side dropWhile. -/
def trimSpec (s : List Char) : List Char :=
  List.rdropWhile jsWs (s.dropWhile jsWs)

/-- The sanitizer as the amended spec words it. -/
def sanitizeFileNameSpec (s : List Char) : List Char :=
  List.rdropWhile spaceDot
    (trimSpec (collapseRuns (s.map (fun c => if forbiddenChar c then '-' else c))))

/-- The sanitizer as claim C2 words it: the forbidden characters are
removed (filtered out) instead of replaced with a dash; the remaining
stages are those of the code. -/
def sanitizeFileNameClaimC2 (s : List Char) : List Char :=
  stripTrailingSpaceDot (trimList (collapseWs (s.filter (fun c => !forbiddenChar c))))

/-! ## Structure of sanitized strings

The idempotence of `sanitizeFileName` rests on a characterisation of its
output: it contains no forbidden character, every whitespace character in
it is a plain space, no two adjacent characters are both whitespace, and
it neither starts with whitespace nor ends with whitespace, a space or a
dot.  Each pipeline stage is then the identity on such a list. -/

/-- Adjacent characters are not both whitespace. -/
def noTwoWs (a b : Char) : Prop := jsWs a = false ∨ jsWs b = false

/-- A concrete plugin state used to evaluate the modelled methods. -/
def sampleState : AiNotesState :=
  { geminiApiKey := "key", customTranscriptionTypes := [], mediaRecorder := none,
    audioChunks := [], stream := none, currentTranscriptionTitle := none }

end AiNotes

namespace AiNotes

theorem noTwoWs_symm {a b : Char} (h : noTwoWs a b) : noTwoWs b a := h.symm

theorem forbiddenChar_replChar (c : Char) : forbiddenChar (replChar c) = false := by
  unfold replChar
  cases h : forbiddenChar c
  · simp [h]
  · simp only [h, if_true]
    decide

theorem mem_replaceForbidden {c : Char} {s : List Char}
    (h : c ∈ replaceForbidden s) : forbiddenChar c = false := by
  unfold replaceForbidden at h
  rcases List.mem_map.mp h with ⟨d, _, rfl⟩
  exact forbiddenChar_replChar d

theorem mem_collapseWsAux {c : Char} :
    ∀ (l : List Char) (b : Bool),
      c ∈ collapseWsAux b l → c = ' ' ∨ (c ∈ l ∧ jsWs c = false) := by
  intro l
  induction l with
  | nil => intro b h; simp [collapseWsAux] at h
  | cons d rest ih =>
    intro b h
    cases hd : jsWs d
    · simp only [collapseWsAux, hd] at h
      simp only [Bool.false_eq_true, if_false] at h
      rcases List.mem_cons.mp h with h | h
      · subst h
        exact Or.inr ⟨List.mem_cons_self _ _, hd⟩
      · rcases ih false h with h1 | ⟨h2, h3⟩
        · exact Or.inl h1
        · exact Or.inr ⟨List.mem_cons_of_mem d h2, h3⟩
    · cases b
      · simp only [collapseWsAux, hd, if_true, Bool.false_eq_true, if_false] at h
        rcases List.mem_cons.mp h with h | h
        · exact Or.inl h
        · rcases ih true h with h1 | ⟨h2, h3⟩
          · exact Or.inl h1
          · exact Or.inr ⟨List.mem_cons_of_mem d h2, h3⟩
      · simp only [collapseWsAux, hd, if_true] at h
        rcases ih true h with h1 | ⟨h2, h3⟩
        · exact Or.inl h1
        · exact Or.inr ⟨List.mem_cons_of_mem d h2, h3⟩

theorem head_collapseWsAux_true {c : Char} :
    ∀ l : List Char, (collapseWsAux true l).head? = some c → jsWs c = false := by
  intro l
  induction l with
  | nil => intro h; simp [collapseWsAux] at h
  | cons d rest ih =>
    intro h
    cases hd : jsWs d
    · simp only [collapseWsAux, hd, Bool.false_eq_true, if_false, List.head?_cons,
        Option.some.injEq] at h
      subst h
      exact hd
    · simp only [collapseWsAux, hd, if_true] at h
      exact ih h

theorem chain'_collapseWsAux :
    ∀ (l : List Char) (b : Bool), List.Chain' noTwoWs (collapseWsAux b l) := by
  intro l
  induction l with
  | nil => intro b; simp [collapseWsAux]
  | cons d rest ih =>
    intro b
    cases hd : jsWs d
    · simp only [collapseWsAux, hd, Bool.false_eq_true, if_false]
      refine List.chain'_cons'.mpr ⟨?_, ih false⟩
      intro y _
      exact Or.inl hd
    · cases b
      · simp only [collapseWsAux, hd, if_true, Bool.false_eq_true, if_false]
        refine List.chain'_cons'.mpr ⟨?_, ih true⟩
        intro y hy
        exact Or.inr (head_collapseWsAux_true rest (Option.mem_def.mp hy))
      · simp only [collapseWsAux, hd, if_true]
        exact ih true

theorem collapseWsAux_eq_self :
    ∀ (l : List Char) (b : Bool),
      (∀ c ∈ l, jsWs c = true → c = ' ') →
      List.Chain' noTwoWs l →
      (b = true → ∀ c, l.head? = some c → jsWs c = false) →
      collapseWsAux b l = l := by
  intro l
  induction l with
  | nil => intro b _ _ _; rfl
  | cons d rest ih =>
    intro b hws hchain hhead
    have htail : List.Chain' noTwoWs rest := hchain.tail
    have hrel : ∀ y ∈ rest.head?, noTwoWs d y := (List.chain'_cons'.mp hchain).1
    cases hd : jsWs d
    · simp only [collapseWsAux, hd, Bool.false_eq_true, if_false]
      congr 1
      apply ih false
      · intro c hc hcw; exact hws c (List.mem_cons_of_mem d hc) hcw
      · exact htail
      · intro hfb; exact absurd hfb (by simp)
    · cases b
      · have hd' : d = ' ' := hws d (List.mem_cons_self _ _) hd
        simp only [collapseWsAux, hd, if_true, Bool.false_eq_true, if_false]
        rw [hd']
        congr 1
        apply ih true
        · intro c hc hcw; exact hws c (List.mem_cons_of_mem d hc) hcw
        · exact htail
        · intro _ c hc
          rcases hrel c (Option.mem_def.mpr hc) with h | h
          · rw [hd] at h; exact absurd h (by simp)
          · exact h
      · have := hhead rfl d rfl
        rw [hd] at this
        exact absurd this (by simp)

end AiNotes

namespace AiNotes

theorem stripTrim_eq (l : List Char) :
    stripTrailingSpaceDot (trimList l) =
      (((l.dropWhile jsWs).reverse.dropWhile jsWs).dropWhile spaceDot).reverse := by
  unfold stripTrailingSpaceDot trimList
  rw [List.reverse_reverse]

theorem head?_dropWhile_false {p : Char → Bool} :
    ∀ {l : List Char} {c : Char}, (l.dropWhile p).head? = some c → p c = false := by
  intro l
  induction l with
  | nil => intro c h; simp [List.dropWhile] at h
  | cons d rest ih =>
    intro c h
    cases hd : p d
    · rw [List.dropWhile_cons] at h
      simp only [hd, Bool.false_eq_true, if_false, List.head?_cons, Option.some.injEq] at h
      subst h
      exact hd
    · rw [List.dropWhile_cons] at h
      simp only [hd, if_true] at h
      exact ih h

theorem dropWhile_eq_self_of_head {p : Char → Bool} {l : List Char}
    (h : ∀ c, l.head? = some c → p c = false) : l.dropWhile p = l := by
  cases l with
  | nil => rfl
  | cons d rest =>
    rw [List.dropWhile_cons]
    simp [h d rfl]

theorem getLast?_dropWhile_of_ne_nil {p : Char → Bool} {l : List Char}
    (h : l.dropWhile p ≠ []) : (l.dropWhile p).getLast? = l.getLast? := by
  obtain ⟨t, ht⟩ := List.dropWhile_suffix (l := l) p
  conv_rhs => rw [← ht]
  exact (List.getLast?_append_of_ne_nil t h).symm

theorem chain'_noTwoWs_reverse {l : List Char}
    (h : List.Chain' noTwoWs l) : List.Chain' noTwoWs l.reverse := by
  rw [List.chain'_reverse]
  exact h.imp (fun a b hab => noTwoWs_symm hab)

theorem mem_stripTrim {l : List Char} {c : Char}
    (h : c ∈ stripTrailingSpaceDot (trimList l)) : c ∈ l := by
  rw [stripTrim_eq] at h
  rw [List.mem_reverse] at h
  have h1 := (List.dropWhile_suffix spaceDot).subset h
  have h2 := (List.dropWhile_suffix jsWs).subset h1
  rw [List.mem_reverse] at h2
  exact (List.dropWhile_suffix jsWs).subset h2

theorem chain'_stripTrim {l : List Char} (h : List.Chain' noTwoWs l) :
    List.Chain' noTwoWs (stripTrailingSpaceDot (trimList l)) := by
  rw [stripTrim_eq]
  apply chain'_noTwoWs_reverse
  have h1 : List.Chain' noTwoWs (l.dropWhile jsWs) :=
    h.suffix (List.dropWhile_suffix jsWs)
  have h2 := chain'_noTwoWs_reverse h1
  have h3 : List.Chain' noTwoWs ((l.dropWhile jsWs).reverse.dropWhile jsWs) :=
    h2.suffix (List.dropWhile_suffix jsWs)
  exact h3.suffix (List.dropWhile_suffix spaceDot)

theorem head_stripTrim_not_ws {l : List Char} {c : Char}
    (hc : (stripTrailingSpaceDot (trimList l)).head? = some c) : jsWs c = false := by
  rw [stripTrim_eq, List.head?_reverse] at hc
  have hF : ((l.dropWhile jsWs).reverse.dropWhile jsWs).dropWhile spaceDot ≠ [] := by
    intro h0; rw [h0] at hc; cases hc
  have hE : (l.dropWhile jsWs).reverse.dropWhile jsWs ≠ [] := by
    intro h0; apply hF; rw [h0]; rfl
  rw [getLast?_dropWhile_of_ne_nil hF, getLast?_dropWhile_of_ne_nil hE,
    List.getLast?_reverse] at hc
  exact head?_dropWhile_false hc

theorem head_rev_stripTrim_not_ws {l : List Char} {c : Char}
    (hws : ∀ c ∈ l, jsWs c = true → c = ' ')
    (hc : (stripTrailingSpaceDot (trimList l)).reverse.head? = some c) : jsWs c = false := by
  rw [stripTrim_eq, List.reverse_reverse] at hc
  have hsd : spaceDot c = false := head?_dropWhile_false hc
  have hmem : c ∈ l := by
    have h1 := (List.dropWhile_suffix jsWs).subset
      ((List.dropWhile_suffix spaceDot).subset (List.mem_of_mem_head? hc))
    rw [List.mem_reverse] at h1
    exact (List.dropWhile_suffix jsWs).subset h1
  cases hw : jsWs c
  · rfl
  · have := hws c hmem hw
    subst this
    exact absurd hsd (by decide)

theorem trim_stripTrim {l : List Char}
    (hws : ∀ c ∈ l, jsWs c = true → c = ' ') :
    trimList (stripTrailingSpaceDot (trimList l)) = stripTrailingSpaceDot (trimList l) := by
  show (((stripTrailingSpaceDot (trimList l)).dropWhile jsWs).reverse.dropWhile jsWs).reverse
      = stripTrailingSpaceDot (trimList l)
  rw [dropWhile_eq_self_of_head (fun c hc => head_stripTrim_not_ws hc),
    dropWhile_eq_self_of_head (fun c hc => head_rev_stripTrim_not_ws hws hc),
    List.reverse_reverse]

theorem strip_stripTrim (l : List Char) :
    stripTrailingSpaceDot (stripTrailingSpaceDot (trimList l)) =
      stripTrailingSpaceDot (trimList l) := by
  unfold stripTrailingSpaceDot
  rw [List.reverse_reverse, List.dropWhile_idempotent]

theorem repl_stripTrim {l : List Char}
    (hforb : ∀ c ∈ l, forbiddenChar c = false) :
    replaceForbidden (stripTrailingSpaceDot (trimList l)) =
      stripTrailingSpaceDot (trimList l) := by
  unfold replaceForbidden
  have h : ∀ c ∈ stripTrailingSpaceDot (trimList l), replChar c = c := by
    intro c hc
    unfold replChar
    simp [hforb c (mem_stripTrim hc)]
  rw [List.map_congr_left h]
  exact List.map_id' _

theorem collapse_stripTrim {l : List Char}
    (hws : ∀ c ∈ l, jsWs c = true → c = ' ')
    (hchain : List.Chain' noTwoWs l) :
    collapseWs (stripTrailingSpaceDot (trimList l)) = stripTrailingSpaceDot (trimList l) := by
  unfold collapseWs
  apply collapseWsAux_eq_self
  · intro c hc hcw; exact hws c (mem_stripTrim hc) hcw
  · exact chain'_stripTrim hchain
  · intro hfb; exact absurd hfb (by simp)

theorem forbidden_collapse_repl {s : List Char} {c : Char}
    (h : c ∈ collapseWs (replaceForbidden s)) : forbiddenChar c = false := by
  rcases mem_collapseWsAux _ _ h with h1 | ⟨h2, _⟩
  · subst h1; decide
  · exact mem_replaceForbidden h2

theorem wsSpace_collapse {l : List Char} {c : Char}
    (h : c ∈ collapseWs l) (hw : jsWs c = true) : c = ' ' := by
  rcases mem_collapseWsAux _ _ h with h1 | ⟨_, h3⟩
  · exact h1
  · rw [hw] at h3; exact absurd h3 (by simp)

end AiNotes

namespace AiNotes

theorem collapseWsAux_true_eq (l : List Char) :
    collapseWsAux true l = collapseWsAux false (l.dropWhile jsWs) := by
  induction l with
  | nil => rfl
  | cons d rest ih =>
    cases hd : jsWs d
    · simp [collapseWsAux, List.dropWhile_cons, hd]
    · simp only [collapseWsAux, hd, if_true, List.dropWhile_cons]
      exact ih

theorem collapseWsAux_false_eq :
    ∀ (n : Nat) (l : List Char), l.length ≤ n → collapseWsAux false l = collapseRuns l := by
  intro n
  induction n with
  | zero =>
    intro l hl
    rw [List.length_eq_zero.mp (Nat.le_zero.mp hl)]
    simp [collapseWsAux, collapseRuns]
  | succ n ih =>
    intro l hl
    cases l with
    | nil => simp [collapseWsAux, collapseRuns]
    | cons d rest =>
      cases hd : jsWs d
      · rw [show collapseWsAux false (d :: rest) = d :: collapseWsAux false rest from by
          simp [collapseWsAux, hd]]
        rw [collapseRuns, if_neg (by simp [hd])]
        rw [ih rest (Nat.le_of_succ_le_succ (by simpa using hl))]
      · rw [show collapseWsAux false (d :: rest) = ' ' :: collapseWsAux true rest from by
          simp [collapseWsAux, hd]]
        rw [collapseWsAux_true_eq, collapseRuns, if_pos (by simp [hd])]
        rw [ih (rest.dropWhile jsWs) ?_]
        calc (rest.dropWhile jsWs).length
            ≤ rest.length := ((List.dropWhile_suffix jsWs).sublist).length_le
          _ ≤ n := Nat.le_of_succ_le_succ (by simpa using hl)

theorem collapseWs_eq_collapseRuns (l : List Char) : collapseWs l = collapseRuns l :=
  collapseWsAux_false_eq l.length l le_rfl

end AiNotes

namespace AiNotes

/-! ## Claim theorems -/

/-- C1 (counterexample): on a run where both the transcription call and the
save succeed, the sequence of `ProgressPresenter` states is
`[transcribing, saving]`, not `[transcribing, saving, completed]` as the
claim states — `transcribeAndSave` never calls `updateStatus('completed')`;
on success it closes the modal directly (src/main.ts:163). -/
theorem progressTrace_success_counterexample :
    statusTrace (transcribeAndSave sampleState [] ("p") (TranscribeOutcome.ok ("t"))
        SaveOutcome.ok 0).effects = [ProgressStatus.transcribing, ProgressStatus.saving] ∧
    [ProgressStatus.transcribing, ProgressStatus.saving] ≠
      [ProgressStatus.transcribing, ProgressStatus.saving, ProgressStatus.completed] := by
  constructor
  · rfl
  · decide

/-- C1 (amended): for every pipeline run, the sequence of
`ProgressPresenter` states is exactly `[transcribing, saving]` when both
the transcription call and the save succeed (the modal is closed without
ever entering `completed`); exactly `[transcribing, error]` when the
transcription call fails; and exactly `[transcribing, saving, error]` when
the save fails. -/
theorem progressTrace_run_shapes (st : AiNotesState) (blob : List Nat)
    (prompt text msgT msgS : String) (now : Nat) :
    statusTrace (transcribeAndSave st blob prompt (TranscribeOutcome.ok text)
        SaveOutcome.ok now).effects = [ProgressStatus.transcribing, ProgressStatus.saving] ∧
    (∀ save, statusTrace (transcribeAndSave st blob prompt (TranscribeOutcome.err msgT)
        save now).effects = [ProgressStatus.transcribing, ProgressStatus.error]) ∧
    statusTrace (transcribeAndSave st blob prompt (TranscribeOutcome.ok text)
        (SaveOutcome.err msgS) now).effects =
      [ProgressStatus.transcribing, ProgressStatus.saving, ProgressStatus.error] := by
  refine ⟨rfl, fun save => rfl, rfl⟩

/-- C2 (counterexample): the sanitizer does not strip (remove) the
forbidden characters — it replaces them with a dash.  On the input `":"`
the code yields `"-"`, while removal as claimed would yield `""`
(`sanitizeFileNameClaimC2` is the claim's wording, with removal). -/
theorem sanitizeFileName_replaces_counterexample :
    sanitizeFileName (":".data) = ("-".data) ∧
    sanitizeFileNameClaimC2 (":".data) = ("".data) ∧
    ("-".data) ≠ ("".data) := by
  refine ⟨by decide, by decide, by decide⟩

/-- C2 (amended): for every input string, the filename sanitization
function replaces each of the characters `\ / : * ? " < > |` with `'-'`
(rather than removing them), collapses every run of whitespace to a single
space, trims leading/trailing whitespace, and strips trailing dots and
spaces from the result — i.e. it equals the spec-worded pipeline
`sanitizeFileNameSpec`. -/
theorem sanitizeFileName_eq_spec (s : List Char) :
    sanitizeFileName s = sanitizeFileNameSpec s := by
  unfold sanitizeFileName sanitizeFileNameSpec trimSpec stripTrailingSpaceDot trimList
    List.rdropWhile replaceForbidden replChar
  rw [collapseWs_eq_collapseRuns]

/-- C3: applying the sanitizer to `"Team: Meeting/Alex? "` returns exactly
`"Team- Meeting-Alex-"` — the colon, slash and question mark are each
replaced with `'-'` and the trailing space is stripped. -/
theorem sanitizeFileName_team_meeting_example :
    sanitizeFileName ("Team: Meeting/Alex? ".data) = ("Team- Meeting-Alex-".data) := by
  decide

/-- C4: the filename sanitization function is idempotent:
`sanitize (sanitize s) = sanitize s` for every string `s`. -/
theorem sanitizeFileName_idempotent (s : List Char) :
    sanitizeFileName (sanitizeFileName s) = sanitizeFileName s := by
  have hforbC : ∀ c ∈ collapseWs (replaceForbidden s), forbiddenChar c = false :=
    fun c hc => forbidden_collapse_repl hc
  have hwsC : ∀ c ∈ collapseWs (replaceForbidden s), jsWs c = true → c = ' ' :=
    fun c hc hw => wsSpace_collapse hc hw
  have hchainC : List.Chain' noTwoWs (collapseWs (replaceForbidden s)) :=
    chain'_collapseWsAux _ _
  calc sanitizeFileName (sanitizeFileName s)
      = stripTrailingSpaceDot (trimList (collapseWs (replaceForbidden
          (stripTrailingSpaceDot (trimList (collapseWs (replaceForbidden s))))))) := rfl
    _ = stripTrailingSpaceDot (trimList (collapseWs
          (stripTrailingSpaceDot (trimList (collapseWs (replaceForbidden s)))))) := by
        rw [repl_stripTrim hforbC]
    _ = stripTrailingSpaceDot (trimList
          (stripTrailingSpaceDot (trimList (collapseWs (replaceForbidden s))))) := by
        rw [collapse_stripTrim hwsC hchainC]
    _ = stripTrailingSpaceDot
          (stripTrailingSpaceDot (trimList (collapseWs (replaceForbidden s)))) := by
        rw [trim_stripTrim hwsC]
    _ = stripTrailingSpaceDot (trimList (collapseWs (replaceForbidden s))) :=
        strip_stripTrim (collapseWs (replaceForbidden s))
    _ = sanitizeFileName s := rfl

/-- C5: when the pending title is absent, or is empty after trimming, or
sanitizes to the empty string, the output filename falls back to the
timestamp form, and a successful run writes the note at
`transcriptions/transcription-<epoch-millis>.md`. -/
theorem fallback_timestamp_path (st : AiNotesState) (blob : List Nat)
    (prompt text : String) (now : Nat)
    (h : st.currentTranscriptionTitle = none ∨
      trimList (st.currentTranscriptionTitle.getD []) = [] ∨
      sanitizeFileName (trimList (st.currentTranscriptionTitle.getD [])) = []) :
    filePath st.currentTranscriptionTitle now =
      ("transcriptions/transcription-" ++ Nat.repr now ++ ".md").data ∧
    Effect.createNote (("transcriptions/transcription-" ++ Nat.repr now ++ ".md").data) text
      ∈ (transcribeAndSave st blob prompt (TranscribeOutcome.ok text)
          SaveOutcome.ok now).effects := by
  have hbase : fileBaseName st.currentTranscriptionTitle now =
      ("transcription-".data) ++ (Nat.repr now).data := by
    rcases h with h | h | h
    · rw [h]; rfl
    · simp [fileBaseName, h]
    · by_cases h0 : trimList (st.currentTranscriptionTitle.getD []) = []
      · simp [fileBaseName, h0]
      · simp [fileBaseName, h0, h]
  have key : ("transcriptions/".data) ++ (("transcription-".data) ++ (Nat.repr now).data)
      ++ (".md".data) =
      ("transcriptions/transcription-".data) ++ (Nat.repr now).data ++ (".md".data) := by
    rfl
  have hpath : filePath st.currentTranscriptionTitle now =
      ("transcriptions/transcription-" ++ Nat.repr now ++ ".md").data := by
    unfold filePath
    rw [hbase]
    simp only [String.data_append]
    exact key
  refine ⟨hpath, ?_⟩
  simp [transcribeAndSave, hpath]

/-- C5 (witness): with the whitespace-only pending title `"   "` and
`Date.now() = 123`, the note is created at
`transcriptions/transcription-123.md`. -/
theorem fallback_timestamp_path_witness :
    filePath (some ("   ".data)) 123 =
      ("transcriptions/transcription-" ++ Nat.repr 123 ++ ".md").data ∧
    Effect.createNote (("transcriptions/transcription-" ++ Nat.repr 123 ++ ".md").data) ("t")
      ∈ (transcribeAndSave ⟨"key", [], none, [], none, some ("   ".data)⟩ [] ("p")
          (TranscribeOutcome.ok ("t")) SaveOutcome.ok 123).effects :=
  fallback_timestamp_path ⟨"key", [], none, [], none, some ("   ".data)⟩ [] ("p") ("t") 123
    (Or.inr (Or.inl (by decide)))

/-- C6: for every stored list of custom templates, the modal's first three
entries are the fixed built-ins Simple, Standard, Detailed with their fixed
instruction strings, the user templates follow, and selecting the "Simple"
entry invokes the transcription call with instruction text exactly
`"Transcribe the audio."`. -/
theorem simple_template_prompt (st : AiNotesState) (blob : List Nat)
    (tx : TranscribeOutcome) (save : SaveOutcome) (now : Nat) :
    (modalEntries st.customTranscriptionTypes).take 3 = defaultTypes ∧
    selectEntry st.customTranscriptionTypes 0 = some
      { name := "Simple", description := "A plain transcription of the audio.",
        prompt := "Transcribe the audio." } ∧
    selectAndRun st blob 0 tx save now =
      some (transcribeAndSave st blob ("Transcribe the audio.") tx save now) ∧
    Effect.inference blob ("Transcribe the audio.") ∈
      (transcribeAndSave st blob ("Transcribe the audio.") tx save now).effects := by
  refine ⟨?_, rfl, rfl, ?_⟩
  · simp [modalEntries, defaultTypes]
  · cases tx <;> cases save <;> simp [transcribeAndSave]

/-- C7: the pending title is cleared exactly on the success path — after a
successful note creation it is `none`, and on a failed transcription call
or a failed save the whole plugin state (in particular the title) is left
unchanged. -/
theorem title_cleared_only_on_success (st : AiNotesState) (blob : List Nat)
    (prompt text : String) (now : Nat) :
    (transcribeAndSave st blob prompt (TranscribeOutcome.ok text)
        SaveOutcome.ok now).state.currentTranscriptionTitle = none ∧
    (∀ msg save, (transcribeAndSave st blob prompt (TranscribeOutcome.err msg)
        save now).state = st) ∧
    (∀ msg, (transcribeAndSave st blob prompt (TranscribeOutcome.ok text)
        (SaveOutcome.err msg) now).state = st) := by
  exact ⟨rfl, fun msg save => rfl, fun msg => rfl⟩

/-- C8: calling `stopRecording` when no capture is active (no recorder or
an inactive one, and no stream) is a no-op, and whenever it runs with a
live stream it stops every track of the stream and releases it (sets it to
`none`), regardless of the recorder's state. -/
theorem stopRecording_noop_and_releases_stream :
    (∀ st : AiNotesState,
        (st.mediaRecorder = none ∨ st.mediaRecorder = some RecorderState.inactive) →
        st.stream = none → stopRecording st = (st, [])) ∧
    (∀ (st : AiNotesState) (tracks : List Nat),
        st.stream = some tracks →
        (stopRecording st).1.stream = none ∧
        ∀ t ∈ tracks, Effect.trackStop t ∈ (stopRecording st).2) := by
  constructor
  · intro st h hs
    obtain ⟨a, b, c, d, e, f⟩ := st
    simp only at hs
    subst hs
    rcases h with h | h <;> simp only at h <;> subst h <;> simp [stopRecording]
  · intro st tracks hs
    obtain ⟨a, b, c, d, e, f⟩ := st
    simp only at hs
    subst hs
    refine ⟨?_, ?_⟩
    · cases c with
      | none => simp [stopRecording]
      | some r => cases r <;> simp [stopRecording]
    · intro t ht
      cases c with
      | none => simpa [stopRecording] using ht
      | some r => cases r <;> simpa [stopRecording] using ht

/-- C8 (witness): on an idle state `stopRecording` changes nothing, and on
a state holding a recording recorder and a one-track stream it clears the
stream and stops that track. -/
theorem stopRecording_noop_and_releases_stream_witness :
    stopRecording ⟨"key", [], none, [], none, none⟩ =
      (⟨"key", [], none, [], none, none⟩, []) ∧
    ((stopRecording ⟨"key", [], some RecorderState.recording, [], some [5], none⟩).1.stream
        = none ∧
      ∀ t ∈ [5], Effect.trackStop t ∈
        (stopRecording ⟨"key", [], some RecorderState.recording, [], some [5], none⟩).2) :=
  ⟨stopRecording_noop_and_releases_stream.1 _ (Or.inl rfl) rfl,
   stopRecording_noop_and_releases_stream.2 _ [5] rfl⟩

/-- C9: if capture stops before any `dataavailable` event fired, the blob
built by the `stop` handler is the valid zero-length blob, the request
`transcribe` builds for it carries zero-length audio, and the pipeline
still performs the inference call with it — no empty-audio guard exists in
`transcribeAndSave` or `transcribe`. -/
theorem empty_blob_still_sent (st : AiNotesState) (prompt : String)
    (tx : TranscribeOutcome) (save : SaveOutcome) (now : Nat)
    (h : st.audioChunks = []) :
    stopEventBlob st = [] ∧
    (transcribeRequest (stopEventBlob st) prompt).data = [] ∧
    Effect.inference (stopEventBlob st) prompt ∈
      (transcribeAndSave st (stopEventBlob st) prompt tx save now).effects := by
  have hb : stopEventBlob st = [] := by simp [stopEventBlob, h]
  refine ⟨hb, by simp [transcribeRequest, hb], ?_⟩
  cases tx <;> cases save <;> simp [transcribeAndSave]

/-- C9 (witness): on a state with an empty chunk buffer the stop-event blob
is empty and the inference call is still made with it. -/
theorem empty_blob_still_sent_witness :
    stopEventBlob sampleState = [] ∧
    (transcribeRequest (stopEventBlob sampleState) ("p")).data = [] ∧
    Effect.inference (stopEventBlob sampleState) ("p") ∈
      (transcribeAndSave sampleState (stopEventBlob sampleState) ("p")
        (TranscribeOutcome.ok ("t")) SaveOutcome.ok 0).effects :=
  empty_blob_still_sent sampleState ("p") (TranscribeOutcome.ok ("t")) SaveOutcome.ok 0 rfl

/-- C10: if the configured API key is the empty string, `initRecording`
returns `false`, leaves the state unchanged (no recorder is created), and
performs no `getUserMedia` call — only the key notice. -/
theorem missing_key_aborts_before_capture (st : AiNotesState) (media : MediaResult)
    (h : st.geminiApiKey = "") :
    initRecording st media =
      (st, false, [Effect.notice ("Please set your Gemini API key in the settings.")]) ∧
    Effect.getUserMedia ∉ (initRecording st media).2.2 := by
  unfold initRecording
  rw [if_pos h]
  exact ⟨rfl, by simp⟩

/-- C10 (witness): with an empty key and a grantable microphone,
`initRecording` returns `false` with only the notice and no device call. -/
theorem missing_key_aborts_before_capture_witness :
    initRecording ⟨"", [], none, [], none, none⟩ (MediaResult.granted [7]) =
      (⟨"", [], none, [], none, none⟩, false,
       [Effect.notice ("Please set your Gemini API key in the settings.")]) ∧
    Effect.getUserMedia ∉
      (initRecording ⟨"", [], none, [], none, none⟩ (MediaResult.granted [7])).2.2 :=
  missing_key_aborts_before_capture _ _ rfl

end AiNotes
